import Mathlib

/-!
Verification of the NIST spectra scraper and its supervisor.

The development shallowly embeds the two Python source files:
  * `1) NIST Spectra Scraper.py` — rate limiter, artifact fetchers
    (`get_jdx`, `get_mol`), formula search and the checkpointed work loop
    `get_all_IR`;
  * `supervised_scraper.py` — failure classification (`is_failure`),
    run classification (`run_scraper`), circuit breaker
    (`check_failure_threshold`) and the restart loop (`main`).

Time is modelled as rationals; external effects (file system, HTTP
transport, HTML parsing, the child process) are oracles supplied as plain
functions, and the stateful loops are explicit state passing producing an
event trace.
-/

namespace NistScraper

/-! ## Supervisor: failure classification (`is_failure`, `run_scraper`) -/

/-- The fixed list of failure-signature patterns from `is_failure` in
`supervised_scraper.py` (all are literal strings, no regex metacharacters). -/
def failure_patterns : List String :=
  ["Connection refused", "Connection reset by peer", "timeout",
   "Too many requests", "rate limit", "HTTPError", "SSLError",
   "ConnectionError", "Max retries exceeded", "ChunkedEncodingError",
   "ReadTimeout", "ConnectTimeout"]

/-- Lower-cased character list of a string, the basis of the
case-insensitive match `re.search(pattern, s, re.IGNORECASE)`. -/
def lowerChars (s : String) : List Char := s.toList.map Char.toLower

/-- Substring search on character lists: does `pat` occur contiguously in
the second argument? -/
def hasSubstr (pat : List Char) : List Char → Bool
  | [] => pat.isPrefixOf []
  | c :: rest => pat.isPrefixOf (c :: rest) || hasSubstr pat rest

/-- Case-insensitive substring test: `re.search(pat, s, re.IGNORECASE)` for a
pattern that contains no regex metacharacters. -/
def containsCI (pat s : String) : Bool :=
  hasSubstr (lowerChars pat) (lowerChars s)

/-- Embeds `is_failure(log_content)`: does any failure pattern occur in the
log content, case-insensitively? -/
def is_failure (log_content : String) : Bool :=
  failure_patterns.any (fun p => containsCI p log_content)

/-- What the supervisor observes of one child run: either an exception was
raised while spawning or streaming (carrying the message appended to the
log), or the child exited with a return code after emitting a transcript. -/
inductive ChildRun where
  | err (msg : String)
  | exited (returnCode : Int) (transcript : String)

/-- Embeds `run_scraper()`. The argument `log` is the content of the log
file before this attempt; the child's transcript is streamed (appended) into
it, then the WHOLE log file is re-read and classified. Returns the success
flag and the new log content. The `except` branch of the source returns
`False`; supervisor-written `log_message` lines are folded into the
appended text. -/
def run_scraper (log : String) : ChildRun → Bool × String
  | .err msg => (false, log ++ msg)
  | .exited rc tr =>
      let full := log ++ tr
      (decide (rc = 0) && !is_failure full, full)

/-! ## Supervisor: circuit breaker (`check_failure_threshold`) -/

/-- `FAILURE_THRESHOLD = (20, 25)`: 20 failures within 25 minutes stop the
script. -/
def FAILURE_THRESHOLD : Nat × Nat := (20, 25)

/-- Embeds `check_failure_threshold(failure_timestamps)`, generalised over
the `(max_failures, time_window_minutes)` pair and over the clock reading
`current_time`. Timestamps are rationals measured in minutes, so the
`timedelta(minutes=w)` window is just `(w : Rat)`. -/
def check_failure_threshold (threshold : Nat × Nat) (failure_timestamps : List Rat)
    (current_time : Rat) : Bool :=
  let max_failures := threshold.1
  let time_window : Rat := threshold.2
  if failure_timestamps.length < max_failures then false
  else
    let recent_failures :=
      (failure_timestamps.filter
        (fun timestamp => decide (current_time - timestamp ≤ time_window))).length
    decide (max_failures ≤ recent_failures)

/-! ## Checkpoint store (the done-file handling in `get_all_IR`) -/

/-- Python's `line.strip()`: remove leading and trailing whitespace. -/
def pyStrip (s : String) : String :=
  ⟨((s.toList.dropWhile Char.isWhitespace).reverse.dropWhile Char.isWhitespace).reverse⟩

/-- The checkpoint store of `get_all_IR`: `file` is the append-only done
file, modelled as its list of lines (each `markDone` writes `key ++ "\n"`,
which is exactly one line for a newline-free key); `mem` is the in-memory
set built by `set(line.strip() for line in done_file)` at startup. -/
structure Store where
  mem : List String
  file : List String

/-- Embeds the checkpoint append `done_file.write(key + "\n")`: the source
appends to the durable file only and does NOT touch the in-memory set. -/
def markDone (st : Store) (key : String) : Store :=
  { st with file := st.file ++ [key] }

/-- Embeds the membership test `key in done_set`. -/
def isDone (st : Store) (key : String) : Bool :=
  decide (key ∈ st.mem)

/-- Re-opening the done file and rebuilding the in-memory set, as the
startup load in `get_all_IR` does. -/
def reload (st : Store) : Store :=
  { st with mem := st.file.map pyStrip }

/-- The store with an empty file and an empty in-memory set. -/
def emptyStore : Store := ⟨[], []⟩

/-! ## Scraper: artifact fetchers and the checkpointed work loop -/

/-- Outcome of one completed artifact fetch attempt. -/
inductive FetchOutcome where
  | saved
  | skipped
  | notFound
deriving DecidableEq, Repr

/-- The two checkpoint categories: `done_formulae.txt` and `done_IDs.txt`. -/
inductive Cat where
  | formulas
  | ids
deriving DecidableEq, Repr

/-- Observable side effects of a scraper run, in order:
a network request (identified by its query parameters), a file written to
local storage, an artifact fetch attempt completing with its outcome, and a
checkpoint append for a work item. -/
inductive Ev where
  | net (params : List (String × String))
  | wrote (path : String)
  | fetched (path : String) (outcome : FetchOutcome)
  | done (cat : Cat) (key : String)
deriving DecidableEq, Repr

/-- External collaborators: the local file system at the start of the run
(`os.path.isfile`), the HTTP transport (`requests.get` returning a body or
raising a transport error) and the HTML id extraction of
`search_nist_formula` (BeautifulSoup plus `ID_RE`). -/
structure Env where
  exists0 : String → Bool
  respond : List (String × String) → Except String String
  parseIDs : String → List String

/-- Mutable run state: the files written so far and the event trace. -/
structure St where
  written : List String
  events : List Ev

/-- The state at the start of a run. -/
def St.init : St := ⟨[], []⟩

/-- A file is present if it existed before the run or was written by it. -/
def fexists (env : Env) (s : St) (path : String) : Bool :=
  env.exists0 path || s.written.contains path

/-- Appending one event to the trace. -/
def emit (s : St) (e : Ev) : St := { s with events := s.events ++ [e] }

/-- `os.path.join(JDX_PATH, '%s-%s.jdx' % (nistid, stype))`. -/
def jdxPath (nistid stype : String) : String :=
  "jdx/" ++ nistid ++ "-" ++ stype ++ ".jdx"

/-- `os.path.join(MOL_PATH, '%s.mol' % nistid)`. -/
def molPath (nistid : String) : String := "mol/" ++ nistid ++ ".mol"

/-- Query parameters of the JCAMP download request in `get_jdx`. -/
def jdxParams (nistid stype : String) : List (String × String) :=
  [("JCAMP", nistid), ("Type", stype), ("Index", "0")]

/-- Query parameters of the structure download request in `get_mol`. -/
def molParams (nistid : String) : List (String × String) :=
  [("Str2File", nistid)]

/-- The documented "spectrum not found" sentinel body checked by `get_jdx`. -/
def jdxSentinel : String := "##TITLE=Spectrum not found.\n##END=\n"

/-- The documented "MOL not found" sentinel body checked by `get_mol`. -/
def molSentinel : String :=
  "NIST    12121112142D 1   1.00000     0.00000\nCopyright by the U.S. Sec. Commerce on behalf of U.S.A. All rights reserved.\n0  0  0     0  0              1 V2000\nM  END\n"

/-- Embeds `get_jdx(nistid, stype)`: skip when the file exists, otherwise
issue the rate-limited request; a sentinel body ends as not-found with no
file written, any other body is written to the deterministic path. The
second component is the propagated transport error, if any. -/
def get_jdx (env : Env) (s : St) (nistid stype : String) : St × Option String :=
  let filepath := jdxPath nistid stype
  if fexists env s filepath then
    (emit s (.fetched filepath .skipped), none)
  else
    match env.respond (jdxParams nistid stype) with
    | .error e => (emit s (.net (jdxParams nistid stype)), some e)
    | .ok body =>
        let s1 := emit s (.net (jdxParams nistid stype))
        if body = jdxSentinel then
          (emit s1 (.fetched filepath .notFound), none)
        else
          ({ written := s1.written ++ [filepath],
             events := s1.events ++ [.wrote filepath, .fetched filepath .saved] },
           none)

/-- Embeds `get_mol(nistid)`, the same shape as `get_jdx` with the MOL path,
parameters and sentinel. -/
def get_mol (env : Env) (s : St) (nistid : String) : St × Option String :=
  let filepath := molPath nistid
  if fexists env s filepath then
    (emit s (.fetched filepath .skipped), none)
  else
    match env.respond (molParams nistid) with
    | .error e => (emit s (.net (molParams nistid)), some e)
    | .ok body =>
        let s1 := emit s (.net (molParams nistid))
        if body = molSentinel then
          (emit s1 (.fetched filepath .notFound), none)
        else
          ({ written := s1.written ++ [filepath],
             events := s1.events ++ [.wrote filepath, .fetched filepath .saved] },
           none)

/-- The query parameters `search_nist_formula` assembles from its flags. -/
def searchParams (formula : String)
    (allow_other allow_extra match_isotopes exclude_ions has_ir : Bool) :
    List (String × String) :=
  [("Formula", formula), ("Units", "SI")]
    ++ (if allow_other then [("AllowOther", "on")] else [])
    ++ (if allow_extra then [("AllowExtra", "on")] else [])
    ++ (if match_isotopes then [("MatchIso", "on")] else [])
    ++ (if exclude_ions then [("NoIon", "on")] else [])
    ++ (if has_ir then [("cIR", "on")] else [])

/-- Embeds `search_nist_formula`: one rate-limited search request whose
response listing is parsed into the matching NIST ids. -/
def search_nist_formula (env : Env) (s : St) (formula : String)
    (allow_other allow_extra match_isotopes exclude_ions has_ir : Bool) :
    St × Except String (List String) :=
  match env.respond (searchParams formula allow_other allow_extra match_isotopes
      exclude_ions has_ir) with
  | .error e =>
      (emit s (.net (searchParams formula allow_other allow_extra match_isotopes
        exclude_ions has_ir)), .error e)
  | .ok body =>
      (emit s (.net (searchParams formula allow_other allow_extra match_isotopes
        exclude_ions has_ir)), .ok (env.parseIDs body))

/-- The `get_mol(nistid); get_jdx(nistid)` pair, in source order, with the
default spectrum type "IR"; an error in `get_mol` propagates before
`get_jdx` runs. -/
def fetch_pair (env : Env) (s : St) (nistid : String) : St × Option String :=
  match get_mol env s nistid with
  | (s1, some e) => (s1, some e)
  | (s1, none) => get_jdx env s1 nistid "IR"

/-- The `for nistid in ids` body of `retreive_data_from_formula`; an error
aborts the remaining ids. -/
def fetch_ids (env : Env) : St → List String → St × Option String
  | s, [] => (s, none)
  | s, nistid :: rest =>
      match fetch_pair env s nistid with
      | (s1, some e) => (s1, some e)
      | (s1, none) => fetch_ids env s1 rest

/-- Embeds `retreive_data_from_formula(formula)`: search with
`allow_other=True, exclude_ions=False, has_ir=True` and the remaining
defaults, then fetch both artifacts of every resulting id. -/
def retreive_data_from_formula (env : Env) (s : St) (formula : String) :
    St × Option String :=
  match search_nist_formula env s formula true false true false true with
  | (s1, .error e) => (s1, some e)
  | (s1, .ok ids) => fetch_ids env s1 ids

/-- The formula loop of `get_all_IR`: skip formulas in `done_formulae`,
otherwise retrieve and only then append to `done_formulae.txt`. The loaded
done-set is never updated during the loop, exactly as in the source. -/
def run_formulae (env : Env) (done : List String) : St → List String → St × Option String
  | s, [] => (s, none)
  | s, f :: rest =>
      if done.contains f then run_formulae env done s rest
      else
        match retreive_data_from_formula env s f with
        | (s1, some e) => (s1, some e)
        | (s1, none) => run_formulae env done (emit s1 (.done .formulas f)) rest

/-- The raw-id loop of `get_all_IR`: skip ids in `done_IDs`, otherwise
`get_mol; get_jdx` and only then append to `done_IDs.txt`. -/
def run_ids (env : Env) (done : List String) : St → List String → St × Option String
  | s, [] => (s, none)
  | s, nistid :: rest =>
      if done.contains nistid then run_ids env done s rest
      else
        match fetch_pair env s nistid with
        | (s1, some e) => (s1, some e)
        | (s1, none) => run_ids env done (emit s1 (.done .ids nistid)) rest

/-- Embeds the work loop of `get_all_IR` over the enumerated work list:
all formulas first, then all raw ids, resuming from the two done files. -/
def get_all_IR (env : Env) (formulae done_formulae IDs done_IDs : List String) :
    St × Option String :=
  match run_formulae env done_formulae St.init formulae with
  | (s, some e) => (s, some e)
  | (s, none) => run_ids env done_IDs s IDs

/-- Event `e1` occurs strictly before event `e2` in the trace. -/
def Before (e1 e2 : Ev) (tr : List Ev) : Prop :=
  ∃ l1 l2 l3, tr = l1 ++ [e1] ++ l2 ++ [e2] ++ l3

/-- The trace contains, for the work-item key `key` of category `cat`, a
completed mol fetch attempt, then a completed jdx fetch attempt immediately
followed by the checkpoint append for `key`. -/
def MolJdxDoneBlock (tr : List Ev) (cat : Cat) (key : String) : Prop :=
  ∃ l1 o1 l2 o2 l3,
    tr = l1 ++ [Ev.fetched (molPath key) o1] ++ l2 ++
      [Ev.fetched (jdxPath key "IR") o2, Ev.done cat key] ++ l3

/-- The checkpoint append for formula `f` is preceded by its whole fetch
sequence: the search request got a response body, and for every id the
search produced, both artifact fetch attempts completed before the
append. -/
def FormulaDoneSound (env : Env) (tr : List Ev) (f : String) : Prop :=
  ∃ body,
    env.respond (searchParams f true false true false true) = Except.ok body
    ∧ ∀ id ∈ env.parseIDs body,
        (∃ o, Before (Ev.fetched (molPath id) o) (Ev.done Cat.formulas f) tr)
        ∧ (∃ o, Before (Ev.fetched (jdxPath id "IR") o) (Ev.done Cat.formulas f) tr)

/-! ## Supervisor: the restart loop (`main`) -/

/-- `MAX_RESTARTS = 10000` from supervised_scraper.py. -/
def MAX_RESTARTS : Nat := 10000

/-- `collections.deque(maxlen=m).append`: drop the oldest element when the
deque is full. -/
def dequeAppend (maxlen : Nat) (q : List Rat) (x : Rat) : List Rat :=
  if q.length = maxlen then q.tail ++ [x] else q ++ [x]

/-- What the supervisor's environment supplies per attempt index: the
observation of that attempt's child run, the clock reading when its failure
is recorded (`datetime.now()` at the append), and the clock reading inside
the subsequent threshold check. -/
structure SupEnv where
  outcome : Nat → ChildRun
  failTime : Nat → Rat
  checkTime : Nat → Rat

/-- Result of the supervised main loop: the process exit code, the number
of run attempts executed, and whether the circuit breaker tripped. -/
structure MainResult where
  exitCode : Nat
  attempts : Nat
  tripped : Bool
deriving DecidableEq, Repr

/-- The `while restart_count < MAX_RESTARTS` loop of `main()`: `fuel` is
`MAX_RESTARTS - restart_count` and `n` the restart counter. State carried:
the failure-timestamp deque (maxlen 1000) and the log-file content. Fuel
exhausted means the restart budget is spent: exit code 1. -/
def mainLoop (env : SupEnv) : Nat → Nat → List Rat → String → MainResult
  | 0, n, _, _ => ⟨1, n, false⟩
  | fuel + 1, n, stamps, log =>
      match run_scraper log (env.outcome n) with
      | (true, _) => ⟨0, n + 1, false⟩
      | (false, log2) =>
          if check_failure_threshold FAILURE_THRESHOLD
              (dequeAppend 1000 stamps (env.failTime n)) (env.checkTime n) then
            ⟨1, n + 1, true⟩
          else
            mainLoop env fuel (n + 1)
              (dequeAppend 1000 stamps (env.failTime n)) log2

/-- Embeds `main()`: restart counter 0, empty failure deque, freshly
created log file (its header lines contain no failure signature and are
modelled as the empty content). -/
def main (env : SupEnv) : MainResult :=
  mainLoop env MAX_RESTARTS 0 [] ""

/-- The log-file content right before attempt `n`, when the loop starts
with content `log0`. -/
def logAt (env : SupEnv) (log0 : String) : Nat → String
  | 0 => log0
  | n + 1 => (run_scraper (logAt env log0 n) (env.outcome n)).2

/-- Whether attempt `n` of the supervised run is classified successful. -/
def attemptOk (env : SupEnv) (log0 : String) (n : Nat) : Bool :=
  (run_scraper (logAt env log0 n) (env.outcome n)).1

/-! ## Rate limiter (`rate_limited_request`) -/

/-- One call of `rate_limited_request`: the clock reading at entry
(`current_time = datetime.now()`) and the duration of the HTTP request
itself (the recorded timestamp is taken after the response returns). -/
structure RLCall where
  arrival : Rat
  duration : Rat

/-- The instant the request is actually issued: with five recorded
timestamps whose oldest is less than 30 seconds old, the call sleeps
`30 - time_since_oldest` seconds, so the request goes out exactly at
`oldest + 30`; otherwise it goes out immediately. -/
def grantTime (q : List Rat) (t : Rat) : Rat :=
  if q.length = 5 then
    match q with
    | [] => t
    | oldest :: _ => if t - oldest < 30 then oldest + 30 else t
  else t

/-- The rate limiter run: `q` is the `request_timestamps` deque
(maxlen 5, oldest first). Each call yields the pair (issue instant,
recorded timestamp); the recorded timestamp `grant + duration` is appended
to the deque, as `request_timestamps.append(datetime.now())` runs after the
response arrives. -/
def rlRun (q : List Rat) : List RLCall → List (Rat × Rat)
  | [] => []
  | c :: cs =>
      (grantTime q c.arrival, grantTime q c.arrival + c.duration) ::
        rlRun (dequeAppend 5 q (grantTime q c.arrival + c.duration)) cs

/-- Well-formedness of a call sequence against the sequential caller:
request durations are nonnegative and each call's entry clock reading is
at least every timestamp already recorded (the clock is monotone and all
recorded stamps lie in the past). -/
def rlWF (q : List Rat) : List RLCall → Bool
  | [] => true
  | c :: cs =>
      decide (0 ≤ c.duration)
        && q.all (fun x => decide (x ≤ c.arrival))
        && rlWF (dequeAppend 5 q (grantTime q c.arrival + c.duration)) cs

/-- The issue instants of a run. -/
def rlGrants (q : List Rat) (cs : List RLCall) : List Rat :=
  (rlRun q cs).map Prod.fst

/-! ## Theorems -/

/-- Helper: ordering facts persist when the trace grows on the right. -/
theorem Before_append (e1 e2 : Ev) (tr more : List Ev) (h : Before e1 e2 tr) :
    Before e1 e2 (tr ++ more) := by
  obtain ⟨l1, l2, l3, rfl⟩ := h
  exact ⟨l1, l2, l3 ++ more, by simp⟩

/-- Helper: a completed item block persists when the trace grows. -/
theorem molJdxDoneBlock_append (tr more : List Ev) (cat : Cat) (key : String)
    (h : MolJdxDoneBlock tr cat key) : MolJdxDoneBlock (tr ++ more) cat key := by
  obtain ⟨l1, o1, l2, o2, l3, rfl⟩ := h
  exact ⟨l1, o1, l2, o2, l3 ++ more, by simp⟩

/-- Helper: formula soundness persists when the trace grows. -/
theorem formulaDoneSound_append (env : Env) (tr more : List Ev) (f : String)
    (h : FormulaDoneSound env tr f) : FormulaDoneSound env (tr ++ more) f := by
  obtain ⟨body, hresp, hids⟩ := h
  refine ⟨body, hresp, fun id hid => ?_⟩
  obtain ⟨⟨o1, h1⟩, ⟨o2, h2⟩⟩ := hids id hid
  exact ⟨⟨o1, Before_append _ _ _ _ h1⟩, ⟨o2, Before_append _ _ _ _ h2⟩⟩

/-- Helper: `get_mol` only appends events, none of them a checkpoint
append. -/
theorem get_mol_events (env : Env) (s : St) (n : String) :
    ∃ d, (get_mol env s n).1.events = s.events ++ d
      ∧ ∀ c k, Ev.done c k ∉ d := by
  unfold get_mol
  by_cases hex : fexists env s (molPath n) = true
  · exact ⟨[Ev.fetched (molPath n) .skipped], by simp [hex, emit], by simp⟩
  · rw [Bool.not_eq_true] at hex
    cases hresp : env.respond (molParams n) with
    | error e =>
        exact ⟨[Ev.net (molParams n)], by simp [hex, hresp, emit], by simp⟩
    | ok body =>
        by_cases hb : body = molSentinel
        · exact ⟨[Ev.net (molParams n), Ev.fetched (molPath n) .notFound],
            by simp [hex, hresp, hb, emit], by simp⟩
        · exact ⟨[Ev.net (molParams n), Ev.wrote (molPath n),
              Ev.fetched (molPath n) .saved],
            by simp [hex, hresp, hb, emit], by simp⟩

/-- Helper: `get_jdx` only appends events, none of them a checkpoint
append. -/
theorem get_jdx_events (env : Env) (s : St) (n stype : String) :
    ∃ d, (get_jdx env s n stype).1.events = s.events ++ d
      ∧ ∀ c k, Ev.done c k ∉ d := by
  unfold get_jdx
  by_cases hex : fexists env s (jdxPath n stype) = true
  · exact ⟨[Ev.fetched (jdxPath n stype) .skipped], by simp [hex, emit], by simp⟩
  · rw [Bool.not_eq_true] at hex
    cases hresp : env.respond (jdxParams n stype) with
    | error e =>
        exact ⟨[Ev.net (jdxParams n stype)], by simp [hex, hresp, emit], by simp⟩
    | ok body =>
        by_cases hb : body = jdxSentinel
        · exact ⟨[Ev.net (jdxParams n stype), Ev.fetched (jdxPath n stype) .notFound],
            by simp [hex, hresp, hb, emit], by simp⟩
        · exact ⟨[Ev.net (jdxParams n stype), Ev.wrote (jdxPath n stype),
              Ev.fetched (jdxPath n stype) .saved],
            by simp [hex, hresp, hb, emit], by simp⟩

/-- Helper: a successful `get_mol` ends with the completed fetch attempt of
the mol artifact. -/
theorem get_mol_ok_events (env : Env) (s : St) (n : String)
    (h : (get_mol env s n).2 = none) :
    ∃ d o, (get_mol env s n).1.events = s.events ++ d ++ [Ev.fetched (molPath n) o]
      ∧ ∀ c k, Ev.done c k ∉ d := by
  unfold get_mol at h ⊢
  by_cases hex : fexists env s (molPath n) = true
  · exact ⟨[], .skipped, by simp [hex, emit], by simp⟩
  · rw [Bool.not_eq_true] at hex
    cases hresp : env.respond (molParams n) with
    | error e => simp [hex, hresp] at h
    | ok body =>
        by_cases hb : body = molSentinel
        · exact ⟨[Ev.net (molParams n)], .notFound,
            by simp [hex, hresp, hb, emit], by simp⟩
        · exact ⟨[Ev.net (molParams n), Ev.wrote (molPath n)], .saved,
            by simp [hex, hresp, hb, emit], by simp⟩

/-- Helper: a successful `get_jdx` ends with the completed fetch attempt of
the jdx artifact. -/
theorem get_jdx_ok_events (env : Env) (s : St) (n stype : String)
    (h : (get_jdx env s n stype).2 = none) :
    ∃ d o, (get_jdx env s n stype).1.events =
        s.events ++ d ++ [Ev.fetched (jdxPath n stype) o]
      ∧ ∀ c k, Ev.done c k ∉ d := by
  unfold get_jdx at h ⊢
  by_cases hex : fexists env s (jdxPath n stype) = true
  · exact ⟨[], .skipped, by simp [hex, emit], by simp⟩
  · rw [Bool.not_eq_true] at hex
    cases hresp : env.respond (jdxParams n stype) with
    | error e => simp [hex, hresp] at h
    | ok body =>
        by_cases hb : body = jdxSentinel
        · exact ⟨[Ev.net (jdxParams n stype)], .notFound,
            by simp [hex, hresp, hb, emit], by simp⟩
        · exact ⟨[Ev.net (jdxParams n stype), Ev.wrote (jdxPath n stype)], .saved,
            by simp [hex, hresp, hb, emit], by simp⟩

/-- Helper: a failing `get_mol` ends with the failing network request. -/
theorem get_mol_err_last (env : Env) (s : St) (n : String)
    (h : (get_mol env s n).2 ≠ none) :
    ∃ ps, (get_mol env s n).1.events.getLast? = some (Ev.net ps) := by
  unfold get_mol at h ⊢
  by_cases hex : fexists env s (molPath n) = true
  · simp [hex] at h
  · rw [Bool.not_eq_true] at hex
    cases hresp : env.respond (molParams n) with
    | error e =>
        refine ⟨molParams n, ?_⟩
        simp [hex, hresp, emit]
    | ok body =>
        by_cases hb : body = molSentinel <;> simp [hex, hresp, hb] at h

/-- Helper: a failing `get_jdx` ends with the failing network request. -/
theorem get_jdx_err_last (env : Env) (s : St) (n stype : String)
    (h : (get_jdx env s n stype).2 ≠ none) :
    ∃ ps, (get_jdx env s n stype).1.events.getLast? = some (Ev.net ps) := by
  unfold get_jdx at h ⊢
  by_cases hex : fexists env s (jdxPath n stype) = true
  · simp [hex] at h
  · rw [Bool.not_eq_true] at hex
    cases hresp : env.respond (jdxParams n stype) with
    | error e =>
        refine ⟨jdxParams n stype, ?_⟩
        simp [hex, hresp, emit]
    | ok body =>
        by_cases hb : body = jdxSentinel <;> simp [hex, hresp, hb] at h

/-- C3: the circuit breaker trips iff at least `max_failures` recorded
events lie within the trailing window; it never trips with fewer than
`max_failures` events in total, and an event older than the window is never
among the counted (filtered) events. -/
theorem check_failure_threshold_iff (m w : Nat) (stamps : List Rat) (now : Rat) :
    (check_failure_threshold (m, w) stamps now = true ↔
      m ≤ (stamps.filter (fun ts => decide (now - ts ≤ (w : Rat)))).length)
    ∧ (stamps.length < m → check_failure_threshold (m, w) stamps now = false)
    ∧ (∀ ts ∈ stamps, (w : Rat) < now - ts →
        ts ∉ stamps.filter (fun ts2 => decide (now - ts2 ≤ (w : Rat)))) := by
  refine ⟨?_, ?_, ?_⟩
  · unfold check_failure_threshold
    by_cases h : stamps.length < m
    · simp only [h, if_true]
      constructor
      · intro hfalse; exact absurd hfalse (by simp)
      · intro hle
        exact absurd (lt_of_le_of_lt (le_trans hle (List.length_filter_le _ _)) h)
          (lt_irrefl _)
    · simp [h]
  · intro h; unfold check_failure_threshold; simp [h]
  · intro ts _ hold hmem
    rcases List.mem_filter.mp hmem with ⟨_, hdec⟩
    exact absurd (of_decide_eq_true hdec) (not_le.mpr hold)

/-- A substring of `l2` is a substring of `l1 ++ l2`. -/
theorem hasSubstr_append_left (p l1 l2 : List Char) (h : hasSubstr p l2 = true) :
    hasSubstr p (l1 ++ l2) = true := by
  induction l1 with
  | nil => simpa using h
  | cons a t ih =>
      simp only [List.cons_append, hasSubstr, Bool.or_eq_true]
      exact Or.inr ih

/-- Lower-casing distributes over string append. -/
theorem lowerChars_append (a b : String) :
    lowerChars (a ++ b) = lowerChars a ++ lowerChars b := by
  simp [lowerChars, String.toList, String.data_append a b]

/-- A case-insensitive match in `tr` is a match in `log ++ tr`. -/
theorem containsCI_append_left (p log tr : String) (h : containsCI p tr = true) :
    containsCI p (log ++ tr) = true := by
  unfold containsCI at h ⊢
  rw [lowerChars_append]
  exact hasSubstr_append_left _ _ _ h

/-- A failure signature in the run's own transcript makes the whole
accumulated log match. -/
theorem is_failure_append_left (log tr : String) (h : is_failure tr = true) :
    is_failure (log ++ tr) = true := by
  unfold is_failure at h ⊢
  rcases List.any_eq_true.mp h with ⟨p, hp, hmatch⟩
  exact List.any_eq_true.mpr ⟨p, hp, containsCI_append_left p log tr hmatch⟩

/-- C2 (counterexample): with `"timeout"` already in the log file from an
earlier attempt, a child run that emits nothing and exits 0 is classified
`Failed` by the source, although the claim (exit status 0 and a clean
per-run transcript) predicts `Succeeded`. -/
theorem run_scraper_per_run_transcript_false :
    ¬ ((run_scraper "timeout" (ChildRun.exited 0 "")).1 = true ↔
        ((0 : Int) = 0 ∧ is_failure "" = false)) := by
  decide

/-- C2 (amended): `run_scraper` classifies a run as `Succeeded` iff the
exit status is 0 AND the whole accumulated log file (earlier attempts'
output included) matches no failure signature. Consequently a `Succeeded`
classification still implies exit status 0 and a clean per-run transcript,
and a transcript containing "Connection reset by peer" is classified
`Failed` even with exit status 0. -/
theorem run_scraper_classification (log tr : String) (rc : Int) :
    ((run_scraper log (.exited rc tr)).1 = true ↔
      (rc = 0 ∧ is_failure (log ++ tr) = false))
    ∧ ((run_scraper log (.exited rc tr)).1 = true →
        rc = 0 ∧ is_failure tr = false)
    ∧ (containsCI "Connection reset by peer" tr = true →
        (run_scraper log (.exited rc tr)).1 = false) := by
  have hiff : (run_scraper log (.exited rc tr)).1 = true ↔
      (rc = 0 ∧ is_failure (log ++ tr) = false) := by
    simp [run_scraper]
  refine ⟨hiff, ?_, ?_⟩
  · intro h
    rcases hiff.mp h with ⟨hrc, hclean⟩
    refine ⟨hrc, ?_⟩
    by_contra hne
    have htr : is_failure tr = true := by
      cases htr2 : is_failure tr with
      | true => rfl
      | false => exact absurd htr2 hne
    rw [is_failure_append_left log tr htr] at hclean
    exact absurd hclean (by decide)
  · intro hmatch
    have hfail : is_failure (log ++ tr) = true := by
      apply is_failure_append_left
      exact List.any_eq_true.mpr ⟨"Connection reset by peer", by decide, hmatch⟩
    simp [run_scraper, hfail]

/-- C5 (counterexample): immediately after `markDone`, the in-memory
membership test is still false, because the source appends to the done file
without updating the in-memory set — the claim's within-the-same-run half
fails (while after a reload the key is found). -/
theorem markDone_isDone_in_memory_false :
    isDone (markDone emptyStore "H2O") "H2O" = false
    ∧ isDone (reload (markDone emptyStore "H2O")) "H2O" = true := by
  decide

/-- C5 (amended): for a whitespace-clean key, `markDone` followed by a store
reload makes `isDone` true; repeated `markDone` is idempotent with respect
to every subsequent reloaded `isDone` result; and within the same run
`markDone` leaves the in-memory `isDone` answer unchanged (so it is NOT yet
true right after the append). -/
theorem markDone_reload_isDone (st : Store) (key : String)
    (h : pyStrip key = key) :
    isDone (reload (markDone st key)) key = true
    ∧ (∀ j, isDone (reload (markDone (markDone st key) key)) j =
        isDone (reload (markDone st key)) j)
    ∧ (∀ j, isDone (markDone st key) j = isDone st j) := by
  refine ⟨?_, ?_, ?_⟩
  · simp [isDone, reload, markDone, h]
  · intro j
    simp [isDone, reload, markDone, List.mem_append]
  · intro j
    simp [isDone, markDone]

/-- Helper: the two ways `fetch_pair` can run, with the equation each
yields. -/
theorem fetch_pair_cases (env : Env) (s : St) (n : String) :
    (∃ s1 e, get_mol env s n = (s1, some e) ∧ fetch_pair env s n = (s1, some e))
    ∨ (∃ s1, get_mol env s n = (s1, none)
        ∧ fetch_pair env s n = get_jdx env s1 n "IR") := by
  unfold fetch_pair
  rcases hm : get_mol env s n with ⟨s1, err⟩
  cases err with
  | some e => exact Or.inl ⟨s1, e, rfl, rfl⟩
  | none => exact Or.inr ⟨s1, rfl, rfl⟩

/-- Helper: `fetch_pair` only appends events, none a checkpoint append. -/
theorem fetch_pair_events (env : Env) (s : St) (n : String) :
    ∃ d, (fetch_pair env s n).1.events = s.events ++ d
      ∧ ∀ c k, Ev.done c k ∉ d := by
  rcases fetch_pair_cases env s n with ⟨s1, e, hm, hfp⟩ | ⟨s1, hm, hfp⟩
  · obtain ⟨d1, hd1, hnd1⟩ := get_mol_events env s n
    rw [hm] at hd1
    exact ⟨d1, by rw [hfp]; exact hd1, hnd1⟩
  · obtain ⟨d1, hd1, hnd1⟩ := get_mol_events env s n
    rw [hm] at hd1
    obtain ⟨d2, hd2, hnd2⟩ := get_jdx_events env s1 n "IR"
    refine ⟨d1 ++ d2, ?_, ?_⟩
    · rw [hfp, hd2, hd1, List.append_assoc]
    · intro c k hk
      rcases List.mem_append.mp hk with h | h
      · exact hnd1 c k h
      · exact hnd2 c k h

/-- Helper: a successful `fetch_pair` contains the completed mol fetch
attempt and then the completed jdx fetch attempt as its last event. -/
theorem fetch_pair_ok_events (env : Env) (s : St) (n : String)
    (h : (fetch_pair env s n).2 = none) :
    ∃ d1 o1 d2 o2,
      (fetch_pair env s n).1.events =
        s.events ++ d1 ++ [Ev.fetched (molPath n) o1] ++ d2 ++
          [Ev.fetched (jdxPath n "IR") o2]
      ∧ (∀ c k, Ev.done c k ∉ d1) ∧ (∀ c k, Ev.done c k ∉ d2) := by
  rcases fetch_pair_cases env s n with ⟨s1, e, hm, hfp⟩ | ⟨s1, hm, hfp⟩
  · rw [hfp] at h
    simp at h
  · rw [hfp] at h ⊢
    obtain ⟨dm, om, hdm, hndm⟩ := get_mol_ok_events env s n (by rw [hm])
    rw [hm] at hdm
    obtain ⟨dj, oj, hdj, hndj⟩ := get_jdx_ok_events env s1 n "IR" h
    refine ⟨dm, om, dj, oj, ?_, hndm, hndj⟩
    rw [hdj, hdm]

/-- Helper: a failing `fetch_pair` ends with the failing network request. -/
theorem fetch_pair_err_last (env : Env) (s : St) (n : String)
    (h : (fetch_pair env s n).2 ≠ none) :
    ∃ ps, (fetch_pair env s n).1.events.getLast? = some (Ev.net ps) := by
  rcases fetch_pair_cases env s n with ⟨s1, e, hm, hfp⟩ | ⟨s1, hm, hfp⟩
  · rw [hfp]
    have hm2 : (get_mol env s n).2 ≠ none := by rw [hm]; simp
    obtain ⟨ps, hps⟩ := get_mol_err_last env s n hm2
    rw [hm] at hps
    exact ⟨ps, hps⟩
  · rw [hfp] at h ⊢
    exact get_jdx_err_last env s1 n "IR" h

/-- Helper: the two ways one step of the id loop of
`retreive_data_from_formula` can run. -/
theorem fetch_ids_cons (env : Env) (s : St) (n : String) (rest : List String) :
    (∃ s1 e, fetch_pair env s n = (s1, some e)
      ∧ fetch_ids env s (n :: rest) = (s1, some e))
    ∨ (∃ s1, fetch_pair env s n = (s1, none)
      ∧ fetch_ids env s (n :: rest) = fetch_ids env s1 rest) := by
  rcases hfp : fetch_pair env s n with ⟨s1, err⟩
  cases err with
  | some e => exact Or.inl ⟨s1, e, rfl, by simp only [fetch_ids, hfp]⟩
  | none => exact Or.inr ⟨s1, rfl, by simp only [fetch_ids, hfp]⟩

/-- Helper: `fetch_ids` only appends events, none a checkpoint append. -/
theorem fetch_ids_events (env : Env) :
    ∀ ids s, ∃ d, (fetch_ids env s ids).1.events = s.events ++ d
      ∧ ∀ c k, Ev.done c k ∉ d := by
  intro ids
  induction ids with
  | nil => intro s; exact ⟨[], by simp [fetch_ids], by simp⟩
  | cons n rest ih =>
      intro s
      rcases fetch_ids_cons env s n rest with ⟨s1, e, hfp, hred⟩ | ⟨s1, hfp, hred⟩
      · obtain ⟨d1, hd1, hnd1⟩ := fetch_pair_events env s n
        rw [hfp] at hd1
        exact ⟨d1, by rw [hred]; exact hd1, hnd1⟩
      · obtain ⟨d1, hd1, hnd1⟩ := fetch_pair_events env s n
        rw [hfp] at hd1
        obtain ⟨d2, hd2, hnd2⟩ := ih s1
        refine ⟨d1 ++ d2, ?_, ?_⟩
        · rw [hred, hd2, hd1, List.append_assoc]
        · intro c k hk
          rcases List.mem_append.mp hk with h | h
          · exact hnd1 c k h
          · exact hnd2 c k h

/-- Helper: a successful `fetch_ids` run appends, for every id in the list,
completed fetch attempts for both of its artifacts. -/
theorem fetch_ids_ok_mem (env : Env) :
    ∀ ids s, (fetch_ids env s ids).2 = none →
      ∃ d, (fetch_ids env s ids).1.events = s.events ++ d
        ∧ (∀ c k, Ev.done c k ∉ d)
        ∧ ∀ n ∈ ids, (∃ o, Ev.fetched (molPath n) o ∈ d)
            ∧ (∃ o, Ev.fetched (jdxPath n "IR") o ∈ d) := by
  intro ids
  induction ids with
  | nil =>
      intro s _
      exact ⟨[], by simp [fetch_ids], by simp, by simp⟩
  | cons n rest ih =>
      intro s h
      rcases fetch_ids_cons env s n rest with ⟨s1, e, hfp, hred⟩ | ⟨s1, hfp, hred⟩
      · rw [hred] at h
        simp at h
      · rw [hred] at h ⊢
        obtain ⟨dm, om, dj, oj, hsh, hndm, hndj⟩ :=
          fetch_pair_ok_events env s n (by rw [hfp])
        rw [hfp] at hsh
        obtain ⟨d2, hd2, hnd2, hmem2⟩ := ih s1 h
        refine ⟨(dm ++ [Ev.fetched (molPath n) om] ++ dj ++
            [Ev.fetched (jdxPath n "IR") oj]) ++ d2, ?_, ?_, ?_⟩
        · rw [hd2, hsh]
          simp [List.append_assoc]
        · intro c k hk
          simp only [List.mem_append, List.mem_singleton] at hk
          rcases hk with (((h1 | h2) | h3) | h4) | h5
          · exact hndm c k h1
          · cases h2
          · exact hndj c k h3
          · cases h4
          · exact hnd2 c k h5
        · intro m hm
          rcases List.mem_cons.mp hm with rfl | hm2
          · constructor
            · exact ⟨om, by simp⟩
            · exact ⟨oj, by simp⟩
          · obtain ⟨⟨o1, ho1⟩, ⟨o2, ho2⟩⟩ := hmem2 m hm2
            constructor
            · exact ⟨o1, by simp [ho1]⟩
            · exact ⟨o2, by simp [ho2]⟩

/-- Helper: a failing `fetch_ids` ends with the failing network request. -/
theorem fetch_ids_err_last (env : Env) :
    ∀ ids s, (fetch_ids env s ids).2 ≠ none →
      ∃ ps, (fetch_ids env s ids).1.events.getLast? = some (Ev.net ps) := by
  intro ids
  induction ids with
  | nil => intro s h; simp [fetch_ids] at h
  | cons n rest ih =>
      intro s h
      rcases fetch_ids_cons env s n rest with ⟨s1, e, hfp, hred⟩ | ⟨s1, hfp, hred⟩
      · rw [hred]
        have hp2 : (fetch_pair env s n).2 ≠ none := by rw [hfp]; simp
        obtain ⟨ps, hps⟩ := fetch_pair_err_last env s n hp2
        rw [hfp] at hps
        exact ⟨ps, hps⟩
      · rw [hred] at h ⊢
        exact ih s1 h

/-- Helper: the two ways `search_nist_formula` can run. -/
theorem search_cases (env : Env) (s : St) (f : String) (ao ax mi xi ir : Bool) :
    (∃ e, env.respond (searchParams f ao ax mi xi ir) = Except.error e
      ∧ search_nist_formula env s f ao ax mi xi ir =
          (emit s (Ev.net (searchParams f ao ax mi xi ir)), Except.error e))
    ∨ (∃ body, env.respond (searchParams f ao ax mi xi ir) = Except.ok body
      ∧ search_nist_formula env s f ao ax mi xi ir =
          (emit s (Ev.net (searchParams f ao ax mi xi ir)),
           Except.ok (env.parseIDs body))) := by
  unfold search_nist_formula
  rcases hr : env.respond (searchParams f ao ax mi xi ir) with e | body
  · exact Or.inl ⟨e, rfl, rfl⟩
  · exact Or.inr ⟨body, rfl, rfl⟩

/-- Helper: the two ways `retreive_data_from_formula` can run. -/
theorem retreive_cases (env : Env) (s : St) (f : String) :
    (∃ e, retreive_data_from_formula env s f =
        (emit s (Ev.net (searchParams f true false true false true)), some e))
    ∨ (∃ body, env.respond (searchParams f true false true false true) = Except.ok body
      ∧ retreive_data_from_formula env s f =
          fetch_ids env (emit s (Ev.net (searchParams f true false true false true)))
            (env.parseIDs body)) := by
  rcases search_cases env s f true false true false true with ⟨e, hr, hs⟩ | ⟨body, hr, hs⟩
  · refine Or.inl ⟨e, ?_⟩
    unfold retreive_data_from_formula
    rw [hs]
  · refine Or.inr ⟨body, hr, ?_⟩
    unfold retreive_data_from_formula
    rw [hs]

/-- Helper: `retreive_data_from_formula` only appends events, none a
checkpoint append. -/
theorem retreive_events (env : Env) (s : St) (f : String) :
    ∃ d, (retreive_data_from_formula env s f).1.events = s.events ++ d
      ∧ ∀ c k, Ev.done c k ∉ d := by
  rcases retreive_cases env s f with ⟨e, hred⟩ | ⟨body, hr, hred⟩
  · exact ⟨[Ev.net (searchParams f true false true false true)],
      by rw [hred]; simp [emit], by simp⟩
  · obtain ⟨d2, hd2, hnd2⟩ :=
      fetch_ids_events env (env.parseIDs body)
        (emit s (Ev.net (searchParams f true false true false true)))
    refine ⟨[Ev.net (searchParams f true false true false true)] ++ d2, ?_, ?_⟩
    · rw [hred, hd2]
      simp [emit]
    · intro c k hk
      rcases List.mem_append.mp hk with h | h
      · simp at h
      · exact hnd2 c k h

/-- Helper: a successful `retreive_data_from_formula` got a search response
and contains completed fetch attempts for both artifacts of every id the
search produced. -/
theorem retreive_ok_events (env : Env) (s : St) (f : String)
    (h : (retreive_data_from_formula env s f).2 = none) :
    ∃ body d,
      env.respond (searchParams f true false true false true) = Except.ok body
      ∧ (retreive_data_from_formula env s f).1.events =
          s.events ++ [Ev.net (searchParams f true false true false true)] ++ d
      ∧ (∀ c k, Ev.done c k ∉ d)
      ∧ ∀ n ∈ env.parseIDs body,
          (∃ o, Ev.fetched (molPath n) o ∈ d)
          ∧ (∃ o, Ev.fetched (jdxPath n "IR") o ∈ d) := by
  rcases retreive_cases env s f with ⟨e, hred⟩ | ⟨body, hr, hred⟩
  · rw [hred] at h
    simp at h
  · rw [hred] at h ⊢
    obtain ⟨d, hd, hnd, hmem⟩ :=
      fetch_ids_ok_mem env (env.parseIDs body)
        (emit s (Ev.net (searchParams f true false true false true))) h
    refine ⟨body, d, hr, ?_, hnd, hmem⟩
    rw [hd]
    simp [emit]

/-- Helper: a failing `retreive_data_from_formula` ends with the failing
network request. -/
theorem retreive_err_last (env : Env) (s : St) (f : String)
    (h : (retreive_data_from_formula env s f).2 ≠ none) :
    ∃ ps, (retreive_data_from_formula env s f).1.events.getLast? =
      some (Ev.net ps) := by
  rcases retreive_cases env s f with ⟨e, hred⟩ | ⟨body, hr, hred⟩
  · refine ⟨searchParams f true false true false true, ?_⟩
    rw [hred]
    simp [emit]
  · rw [hred] at h ⊢
    exact fetch_ids_err_last env (env.parseIDs body) _ h

/-- Helper: the three ways one step of the formula loop can run. -/
theorem run_formulae_cons (env : Env) (done : List String) (s : St)
    (f : String) (rest : List String) :
    (done.contains f = true
      ∧ run_formulae env done s (f :: rest) = run_formulae env done s rest)
    ∨ (done.contains f = false
      ∧ ∃ s1 e, retreive_data_from_formula env s f = (s1, some e)
        ∧ run_formulae env done s (f :: rest) = (s1, some e))
    ∨ (done.contains f = false
      ∧ ∃ s1, retreive_data_from_formula env s f = (s1, none)
        ∧ run_formulae env done s (f :: rest) =
            run_formulae env done (emit s1 (Ev.done Cat.formulas f)) rest) := by
  by_cases hd : done.contains f = true
  · refine Or.inl ⟨hd, ?_⟩
    simp only [run_formulae]
    rw [hd]
    simp
  · rw [Bool.not_eq_true] at hd
    rcases hr : retreive_data_from_formula env s f with ⟨s1, err⟩
    cases err with
    | some e =>
        refine Or.inr (Or.inl ⟨hd, s1, e, rfl, ?_⟩)
        simp only [run_formulae]
        rw [hd, hr]
        simp
    | none =>
        refine Or.inr (Or.inr ⟨hd, s1, rfl, ?_⟩)
        simp only [run_formulae]
        rw [hd, hr]
        simp

/-- Helper: the three ways one step of the raw-id loop can run. -/
theorem run_ids_cons (env : Env) (done : List String) (s : St)
    (n : String) (rest : List String) :
    (done.contains n = true
      ∧ run_ids env done s (n :: rest) = run_ids env done s rest)
    ∨ (done.contains n = false
      ∧ ∃ s1 e, fetch_pair env s n = (s1, some e)
        ∧ run_ids env done s (n :: rest) = (s1, some e))
    ∨ (done.contains n = false
      ∧ ∃ s1, fetch_pair env s n = (s1, none)
        ∧ run_ids env done s (n :: rest) =
            run_ids env done (emit s1 (Ev.done Cat.ids n)) rest) := by
  by_cases hd : done.contains n = true
  · refine Or.inl ⟨hd, ?_⟩
    simp only [run_ids]
    rw [hd]
    simp
  · rw [Bool.not_eq_true] at hd
    rcases hr : fetch_pair env s n with ⟨s1, err⟩
    cases err with
    | some e =>
        refine Or.inr (Or.inl ⟨hd, s1, e, rfl, ?_⟩)
        simp only [run_ids]
        rw [hd, hr]
        simp
    | none =>
        refine Or.inr (Or.inr ⟨hd, s1, rfl, ?_⟩)
        simp only [run_ids]
        rw [hd, hr]
        simp

/-- Helper: the formula loop only appends events, and never appends a
raw-id checkpoint. -/
theorem run_formulae_extend (env : Env) (done : List String) :
    ∀ fs s, ∃ d, (run_formulae env done s fs).1.events = s.events ++ d
      ∧ ∀ k, Ev.done Cat.ids k ∉ d := by
  intro fs
  induction fs with
  | nil => intro s; exact ⟨[], by simp [run_formulae], by simp⟩
  | cons f rest ih =>
      intro s
      rcases run_formulae_cons env done s f rest with
        ⟨hd, hred⟩ | ⟨hd, s1, e, hr, hred⟩ | ⟨hd, s1, hr, hred⟩
      · obtain ⟨d, h1, h2⟩ := ih s
        exact ⟨d, by rw [hred]; exact h1, h2⟩
      · obtain ⟨d, h1, h2⟩ := retreive_events env s f
        rw [hr] at h1
        refine ⟨d, by rw [hred]; exact h1, fun k => h2 Cat.ids k⟩
      · obtain ⟨d1, h1, h2⟩ := retreive_events env s f
        rw [hr] at h1
        obtain ⟨d2, h3, h4⟩ := ih (emit s1 (Ev.done Cat.formulas f))
        have h1b : s1.events = s.events ++ d1 := h1
        refine ⟨d1 ++ [Ev.done Cat.formulas f] ++ d2, ?_, ?_⟩
        · rw [hred, h3]
          simp [emit, h1b]
        · intro k hk
          simp only [List.mem_append, List.mem_singleton] at hk
          rcases hk with (hk1 | hk2) | hk3
          · exact h2 Cat.ids k hk1
          · simp at hk2
          · exact h4 k hk3

/-- Helper: the raw-id loop only appends events, and never appends a
formula checkpoint. -/
theorem run_ids_extend (env : Env) (done : List String) :
    ∀ ids s, ∃ d, (run_ids env done s ids).1.events = s.events ++ d
      ∧ ∀ f, Ev.done Cat.formulas f ∉ d := by
  intro ids
  induction ids with
  | nil => intro s; exact ⟨[], by simp [run_ids], by simp⟩
  | cons n rest ih =>
      intro s
      rcases run_ids_cons env done s n rest with
        ⟨hd, hred⟩ | ⟨hd, s1, e, hr, hred⟩ | ⟨hd, s1, hr, hred⟩
      · obtain ⟨d, h1, h2⟩ := ih s
        exact ⟨d, by rw [hred]; exact h1, h2⟩
      · obtain ⟨d, h1, h2⟩ := fetch_pair_events env s n
        rw [hr] at h1
        refine ⟨d, by rw [hred]; exact h1, fun f => h2 Cat.formulas f⟩
      · obtain ⟨d1, h1, h2⟩ := fetch_pair_events env s n
        rw [hr] at h1
        obtain ⟨d2, h3, h4⟩ := ih (emit s1 (Ev.done Cat.ids n))
        have h1b : s1.events = s.events ++ d1 := h1
        refine ⟨d1 ++ [Ev.done Cat.ids n] ++ d2, ?_, ?_⟩
        · rw [hred, h3]
          simp [emit, h1b]
        · intro f hf
          simp only [List.mem_append, List.mem_singleton] at hf
          rcases hf with (hf1 | hf2) | hf3
          · exact h2 Cat.formulas f hf1
          · simp at hf2
          · exact h4 f hf3

/-- Helper: every formula checkpoint the formula loop appends is preceded
by that formula's completed fetch sequence. -/
theorem run_formulae_done_sound (env : Env) (done : List String) :
    ∀ fs s f, Ev.done Cat.formulas f ∈ (run_formulae env done s fs).1.events →
      Ev.done Cat.formulas f ∈ s.events
      ∨ FormulaDoneSound env (run_formulae env done s fs).1.events f := by
  intro fs
  induction fs with
  | nil =>
      intro s f hmem
      simp only [run_formulae] at hmem
      exact Or.inl hmem
  | cons g rest ih =>
      intro s f hmem
      rcases run_formulae_cons env done s g rest with
        ⟨hd, hred⟩ | ⟨hd, s1, e, hr, hred⟩ | ⟨hd, s1, hr, hred⟩
      · rw [hred] at hmem ⊢
        exact ih s f hmem
      · rw [hred] at hmem ⊢
        obtain ⟨d, h1, h2⟩ := retreive_events env s g
        rw [hr] at h1
        rw [h1] at hmem
        rcases List.mem_append.mp hmem with h | h
        · exact Or.inl h
        · exact absurd h (h2 Cat.formulas f)
      · rw [hred] at hmem ⊢
        rcases ih (emit s1 (Ev.done Cat.formulas g)) f hmem with hin | hFDS
        · simp only [emit, List.mem_append, List.mem_singleton] at hin
          rcases hin with hin1 | hin2
          · -- the event is in the state before this item's checkpoint
            obtain ⟨body, d, hresp, hsh, hnd, hfetch⟩ :=
              retreive_ok_events env s g (by rw [hr])
            rw [hr] at hsh
            rw [hsh] at hin1
            rcases List.mem_append.mp hin1 with h | h
            · rcases List.mem_append.mp h with h3 | h4
              · exact Or.inl h3
              · simp at h4
            · exact absurd h (hnd Cat.formulas f)
          · -- the event is this item's own checkpoint: f = g
            have hfg : f = g := by
              have := hin2
              injection this with hcat hkey
            subst hfg
            obtain ⟨body, d, hresp, hsh, hnd, hfetch⟩ :=
              retreive_ok_events env s f (by rw [hr])
            rw [hr] at hsh
            have hshb : s1.events =
                s.events ++ [Ev.net (searchParams f true false true false true)]
                  ++ d := hsh
            have hFDSblock :
                FormulaDoneSound env
                  (emit s1 (Ev.done Cat.formulas f)).events f := by
              refine ⟨body, hresp, fun m hm => ?_⟩
              obtain ⟨⟨o1, ho1⟩, ⟨o2, ho2⟩⟩ := hfetch m hm
              constructor
              · obtain ⟨a, b, hab⟩ := List.append_of_mem ho1
                refine ⟨o1, s.events ++
                  [Ev.net (searchParams f true false true false true)] ++ a,
                  b, [], ?_⟩
                simp [emit, hshb, hab]
              · obtain ⟨a, b, hab⟩ := List.append_of_mem ho2
                refine ⟨o2, s.events ++
                  [Ev.net (searchParams f true false true false true)] ++ a,
                  b, [], ?_⟩
                simp [emit, hshb, hab]
            obtain ⟨d2, hext, _⟩ :=
              run_formulae_extend env done rest (emit s1 (Ev.done Cat.formulas f))
            rw [hext]
            exact Or.inr (formulaDoneSound_append env _ d2 f hFDSblock)
        · exact Or.inr hFDS

/-- Helper: every raw-id checkpoint the id loop appends is immediately
preceded by that id's completed jdx fetch attempt, itself preceded by its
completed mol fetch attempt. -/
theorem run_ids_done_sound (env : Env) (done : List String) :
    ∀ ids s k, Ev.done Cat.ids k ∈ (run_ids env done s ids).1.events →
      Ev.done Cat.ids k ∈ s.events
      ∨ MolJdxDoneBlock (run_ids env done s ids).1.events Cat.ids k := by
  intro ids
  induction ids with
  | nil =>
      intro s k hmem
      simp only [run_ids] at hmem
      exact Or.inl hmem
  | cons n rest ih =>
      intro s k hmem
      rcases run_ids_cons env done s n rest with
        ⟨hd, hred⟩ | ⟨hd, s1, e, hr, hred⟩ | ⟨hd, s1, hr, hred⟩
      · rw [hred] at hmem ⊢
        exact ih s k hmem
      · rw [hred] at hmem ⊢
        obtain ⟨d, h1, h2⟩ := fetch_pair_events env s n
        rw [hr] at h1
        rw [h1] at hmem
        rcases List.mem_append.mp hmem with h | h
        · exact Or.inl h
        · exact absurd h (h2 Cat.ids k)
      · rw [hred] at hmem ⊢
        rcases ih (emit s1 (Ev.done Cat.ids n)) k hmem with hin | hblock
        · simp only [emit, List.mem_append, List.mem_singleton] at hin
          rcases hin with hin1 | hin2
          · obtain ⟨d1, o1, d2, o2, hsh, hnd1, hnd2⟩ :=
              fetch_pair_ok_events env s n (by rw [hr])
            rw [hr] at hsh
            rw [hsh] at hin1
            simp only [List.mem_append, List.mem_singleton] at hin1
            rcases hin1 with (((h1 | h2) | h3) | h4) | h5
            · exact Or.inl h1
            · exact absurd h2 (hnd1 Cat.ids k)
            · simp at h3
            · exact absurd h4 (hnd2 Cat.ids k)
            · simp at h5
          · have hkn : k = n := by
              injection hin2 with hcat hkey
            subst hkn
            obtain ⟨d1, o1, d2, o2, hsh, hnd1, hnd2⟩ :=
              fetch_pair_ok_events env s k (by rw [hr])
            rw [hr] at hsh
            have hshb : s1.events = s.events ++ d1 ++ [Ev.fetched (molPath k) o1]
                ++ d2 ++ [Ev.fetched (jdxPath k "IR") o2] := hsh
            have hblock0 :
                MolJdxDoneBlock (emit s1 (Ev.done Cat.ids k)).events Cat.ids k := by
              refine ⟨s.events ++ d1, o1, d2, o2, [], ?_⟩
              simp [emit, hshb]
            obtain ⟨d3, hext, _⟩ :=
              run_ids_extend env done rest (emit s1 (Ev.done Cat.ids k))
            rw [hext]
            exact Or.inr (molJdxDoneBlock_append _ d3 Cat.ids k hblock0)
        · exact Or.inr hblock

/-- Helper: a failing formula loop ends with the failing network request. -/
theorem run_formulae_err_last (env : Env) (done : List String) :
    ∀ fs s, (run_formulae env done s fs).2 ≠ none →
      ∃ ps, (run_formulae env done s fs).1.events.getLast? = some (Ev.net ps) := by
  intro fs
  induction fs with
  | nil => intro s h; simp [run_formulae] at h
  | cons f rest ih =>
      intro s h
      rcases run_formulae_cons env done s f rest with
        ⟨hd, hred⟩ | ⟨hd, s1, e, hr, hred⟩ | ⟨hd, s1, hr, hred⟩
      · rw [hred] at h ⊢
        exact ih s h
      · rw [hred]
        have hr2 : (retreive_data_from_formula env s f).2 ≠ none := by
          rw [hr]; simp
        obtain ⟨ps, hps⟩ := retreive_err_last env s f hr2
        rw [hr] at hps
        exact ⟨ps, hps⟩
      · rw [hred] at h ⊢
        exact ih (emit s1 (Ev.done Cat.formulas f)) h

/-- Helper: a failing raw-id loop ends with the failing network request. -/
theorem run_ids_err_last (env : Env) (done : List String) :
    ∀ ids s, (run_ids env done s ids).2 ≠ none →
      ∃ ps, (run_ids env done s ids).1.events.getLast? = some (Ev.net ps) := by
  intro ids
  induction ids with
  | nil => intro s h; simp [run_ids] at h
  | cons n rest ih =>
      intro s h
      rcases run_ids_cons env done s n rest with
        ⟨hd, hred⟩ | ⟨hd, s1, e, hr, hred⟩ | ⟨hd, s1, hr, hred⟩
      · rw [hred] at h ⊢
        exact ih s h
      · rw [hred]
        have hr2 : (fetch_pair env s n).2 ≠ none := by rw [hr]; simp
        obtain ⟨ps, hps⟩ := fetch_pair_err_last env s n hr2
        rw [hr] at hps
        exact ⟨ps, hps⟩
      · rw [hred] at h ⊢
        exact ih (emit s1 (Ev.done Cat.ids n)) h

/-- Helper: the two ways `get_all_IR` can run. -/
theorem get_all_IR_cases (env : Env) (formulae done_f IDs done_i : List String) :
    (∃ s e, run_formulae env done_f St.init formulae = (s, some e)
      ∧ get_all_IR env formulae done_f IDs done_i = (s, some e))
    ∨ (∃ s, run_formulae env done_f St.init formulae = (s, none)
      ∧ get_all_IR env formulae done_f IDs done_i = run_ids env done_i s IDs) := by
  unfold get_all_IR
  rcases h : run_formulae env done_f St.init formulae with ⟨s, err⟩
  cases err with
  | some e => exact Or.inl ⟨s, e, rfl, rfl⟩
  | none => exact Or.inr ⟨s, rfl, rfl⟩

/-- C4: in a full `get_all_IR` run, every raw-id checkpoint append in the
trace is immediately preceded by that id's completed jdx fetch attempt with
its completed mol fetch attempt earlier; every formula checkpoint append is
preceded by the formula's search response and completed fetch attempts for
both artifacts of every id the search produced; and a run that aborts on a
thrown transport error ends with the failing network request as its very
last event, so no checkpoint for the interrupted item is ever written. -/
theorem get_all_IR_checkpoint_order (env : Env)
    (formulae done_f IDs done_i : List String) :
    (∀ k, Ev.done Cat.ids k ∈ (get_all_IR env formulae done_f IDs done_i).1.events →
      MolJdxDoneBlock (get_all_IR env formulae done_f IDs done_i).1.events Cat.ids k)
    ∧ (∀ f, Ev.done Cat.formulas f ∈
        (get_all_IR env formulae done_f IDs done_i).1.events →
      FormulaDoneSound env (get_all_IR env formulae done_f IDs done_i).1.events f)
    ∧ ((get_all_IR env formulae done_f IDs done_i).2 ≠ none →
      ∃ ps, (get_all_IR env formulae done_f IDs done_i).1.events.getLast? =
        some (Ev.net ps)) := by
  rcases get_all_IR_cases env formulae done_f IDs done_i with
    ⟨s, e, hrf, hred⟩ | ⟨s, hrf, hred⟩
  · refine ⟨?_, ?_, ?_⟩
    · intro k hmem
      rw [hred] at hmem
      obtain ⟨d, h1, h2⟩ := run_formulae_extend env done_f formulae St.init
      rw [hrf] at h1
      rw [h1] at hmem
      simp only [St.init, List.nil_append] at hmem
      exact absurd hmem (h2 k)
    · intro f hmem
      rw [hred] at hmem ⊢
      have hmem2 : Ev.done Cat.formulas f ∈
          (run_formulae env done_f St.init formulae).1.events := by
        rw [hrf]; exact hmem
      rcases run_formulae_done_sound env done_f formulae St.init f hmem2 with h | h
      · simp [St.init] at h
      · rw [hrf] at h
        exact h
    · intro _
      rw [hred]
      have h2 : (run_formulae env done_f St.init formulae).2 ≠ none := by
        rw [hrf]; simp
      obtain ⟨ps, hps⟩ := run_formulae_err_last env done_f formulae St.init h2
      rw [hrf] at hps
      exact ⟨ps, hps⟩
  · have hforms : ∀ g, Ev.done Cat.formulas g ∈ s.events →
        FormulaDoneSound env s.events g := by
      intro g hg
      have hg2 : Ev.done Cat.formulas g ∈
          (run_formulae env done_f St.init formulae).1.events := by
        rw [hrf]; exact hg
      rcases run_formulae_done_sound env done_f formulae St.init g hg2 with h | h
      · simp [St.init] at h
      · rw [hrf] at h
        exact h
    have hnoids : ∀ k, Ev.done Cat.ids k ∉ s.events := by
      intro k hk
      obtain ⟨d, h1, h2⟩ := run_formulae_extend env done_f formulae St.init
      rw [hrf] at h1
      rw [h1] at hk
      simp only [St.init, List.nil_append] at hk
      exact h2 k hk
    refine ⟨?_, ?_, ?_⟩
    · intro k hmem
      rw [hred] at hmem ⊢
      rcases run_ids_done_sound env done_i IDs s k hmem with h | h
      · exact absurd h (hnoids k)
      · exact h
    · intro f hmem
      rw [hred] at hmem ⊢
      obtain ⟨d, h1, h2⟩ := run_ids_extend env done_i IDs s
      have hin : Ev.done Cat.formulas f ∈ s.events := by
        rw [h1] at hmem
        rcases List.mem_append.mp hmem with h | h
        · exact h
        · exact absurd h (h2 f)
      rw [h1]
      exact formulaDoneSound_append env s.events d f (hforms f hin)
    · intro herr
      rw [hred] at herr ⊢
      exact run_ids_err_last env done_i IDs s herr

/-- C6: an artifact already present at its deterministic path is reported
skipped, with no network request and no file write, for both `get_jdx` and
`get_mol`; neither function consults any checkpoint state, so this holds
regardless of the done files. -/
theorem fetch_skips_existing (env : Env) (s : St) (nistid stype : String)
    (hj : fexists env s (jdxPath nistid stype) = true)
    (hm : fexists env s (molPath nistid) = true) :
    get_jdx env s nistid stype =
      (emit s (.fetched (jdxPath nistid stype) .skipped), none)
    ∧ get_mol env s nistid =
      (emit s (.fetched (molPath nistid) .skipped), none) := by
  constructor
  · unfold get_jdx; simp [hj]
  · unfold get_mol; simp [hm]

/-- C6 (witness): the concrete instance where both artifact files of the
id "1" already exist on storage. -/
theorem fetch_skips_existing_witness :
    get_jdx ⟨fun _ => true, fun _ => Except.ok "", fun _ => []⟩ St.init "1" "IR" =
      (emit St.init (.fetched (jdxPath "1" "IR") .skipped), none)
    ∧ get_mol ⟨fun _ => true, fun _ => Except.ok "", fun _ => []⟩ St.init "1" =
      (emit St.init (.fetched (molPath "1") .skipped), none) :=
  fetch_skips_existing _ St.init "1" "IR" rfl rfl

/-- C7: for an artifact not yet on storage whose request returns a body,
a body equal to the documented fixed sentinel ends the fetch as not-found
with no file written, and any other body is written to the artifact's
deterministic path with result saved — for both `get_jdx` and `get_mol`. -/
theorem fetch_sentinel_or_save (env : Env) (s : St)
    (nistid stype body bodyM : String)
    (hj : fexists env s (jdxPath nistid stype) = false)
    (hrj : env.respond (jdxParams nistid stype) = Except.ok body)
    (hm : fexists env s (molPath nistid) = false)
    (hrm : env.respond (molParams nistid) = Except.ok bodyM) :
    (body = jdxSentinel →
      get_jdx env s nistid stype =
        ({ written := s.written,
           events := s.events ++ [.net (jdxParams nistid stype),
             .fetched (jdxPath nistid stype) .notFound] }, none))
    ∧ (body ≠ jdxSentinel →
      get_jdx env s nistid stype =
        ({ written := s.written ++ [jdxPath nistid stype],
           events := s.events ++ [.net (jdxParams nistid stype),
             .wrote (jdxPath nistid stype),
             .fetched (jdxPath nistid stype) .saved] }, none))
    ∧ (bodyM = molSentinel →
      get_mol env s nistid =
        ({ written := s.written,
           events := s.events ++ [.net (molParams nistid),
             .fetched (molPath nistid) .notFound] }, none))
    ∧ (bodyM ≠ molSentinel →
      get_mol env s nistid =
        ({ written := s.written ++ [molPath nistid],
           events := s.events ++ [.net (molParams nistid),
             .wrote (molPath nistid),
             .fetched (molPath nistid) .saved] }, none)) := by
  refine ⟨?_, ?_, ?_, ?_⟩
  · intro hb; unfold get_jdx; simp [hj, hrj, hb, emit]
  · intro hb; unfold get_jdx; simp [hj, hrj, hb, emit]
  · intro hb; unfold get_mol; simp [hm, hrm, hb, emit]
  · intro hb; unfold get_mol; simp [hm, hrm, hb, emit]

/-- C7 (witness): a concrete transport answering the JCAMP request of id
"1" with the sentinel and its structure request with real data. -/
theorem fetch_sentinel_or_save_witness :
    ((jdxSentinel = jdxSentinel →
      get_jdx
        ⟨fun _ => false,
         fun ps => if ps = molParams "1" then Except.ok "DATA" else Except.ok jdxSentinel,
         fun _ => []⟩ St.init "1" "IR" =
        ({ written := St.init.written,
           events := St.init.events ++ [.net (jdxParams "1" "IR"),
             .fetched (jdxPath "1" "IR") .notFound] }, none))
    ∧ (jdxSentinel ≠ jdxSentinel →
      get_jdx
        ⟨fun _ => false,
         fun ps => if ps = molParams "1" then Except.ok "DATA" else Except.ok jdxSentinel,
         fun _ => []⟩ St.init "1" "IR" =
        ({ written := St.init.written ++ [jdxPath "1" "IR"],
           events := St.init.events ++ [.net (jdxParams "1" "IR"),
             .wrote (jdxPath "1" "IR"),
             .fetched (jdxPath "1" "IR") .saved] }, none))
    ∧ ("DATA" = molSentinel →
      get_mol
        ⟨fun _ => false,
         fun ps => if ps = molParams "1" then Except.ok "DATA" else Except.ok jdxSentinel,
         fun _ => []⟩ St.init "1" =
        ({ written := St.init.written,
           events := St.init.events ++ [.net (molParams "1"),
             .fetched (molPath "1") .notFound] }, none))
    ∧ ("DATA" ≠ molSentinel →
      get_mol
        ⟨fun _ => false,
         fun ps => if ps = molParams "1" then Except.ok "DATA" else Except.ok jdxSentinel,
         fun _ => []⟩ St.init "1" =
        ({ written := St.init.written ++ [molPath "1"],
           events := St.init.events ++ [.net (molParams "1"),
             .wrote (molPath "1"),
             .fetched (molPath "1") .saved] }, none))) :=
  fetch_sentinel_or_save _ St.init "1" "IR" jdxSentinel "DATA"
    rfl rfl rfl rfl

/-- Helper: the formula loop does nothing when every formula is already
checkpointed. -/
theorem run_formulae_all_done (env : Env) (done : List String) :
    ∀ fs s, (∀ f ∈ fs, done.contains f = true) →
      run_formulae env done s fs = (s, none) := by
  intro fs
  induction fs with
  | nil => intro s _; rfl
  | cons f rest ih =>
      intro s h
      have hf := h f (List.mem_cons_self f rest)
      simp only [run_formulae, hf, if_true]
      exact ih s (fun g hg => h g (List.mem_cons_of_mem f hg))

/-- Helper: the raw-id loop does nothing when every id is already
checkpointed. -/
theorem run_ids_all_done (env : Env) (done : List String) :
    ∀ ids s, (∀ i ∈ ids, done.contains i = true) →
      run_ids env done s ids = (s, none) := by
  intro ids
  induction ids with
  | nil => intro s _; rfl
  | cons i rest ih =>
      intro s h
      have hi := h i (List.mem_cons_self i rest)
      simp only [run_ids, hi, if_true]
      exact ih s (fun g hg => h g (List.mem_cons_of_mem i hg))

/-- C8: when every formula and every raw id of the work list is already in
its done file, the whole run produces no events at all — in particular it
issues zero network requests and writes no artifact file. -/
theorem get_all_IR_all_done (env : Env)
    (formulae done_f IDs done_i : List String)
    (hf : ∀ f ∈ formulae, done_f.contains f = true)
    (hi : ∀ i ∈ IDs, done_i.contains i = true) :
    get_all_IR env formulae done_f IDs done_i = (St.init, none)
    ∧ (∀ ps, Ev.net ps ∉ (get_all_IR env formulae done_f IDs done_i).1.events)
    ∧ (get_all_IR env formulae done_f IDs done_i).1.written = [] := by
  have h1 : run_formulae env done_f St.init formulae = (St.init, none) :=
    run_formulae_all_done env done_f formulae St.init hf
  have h2 : run_ids env done_i St.init IDs = (St.init, none) :=
    run_ids_all_done env done_i IDs St.init hi
  have hmain : get_all_IR env formulae done_f IDs done_i = (St.init, none) := by
    unfold get_all_IR
    rw [h1]
    simpa using h2
  refine ⟨hmain, ?_, ?_⟩
  · intro ps
    rw [hmain]
    simp [St.init]
  · rw [hmain]
    rfl

/-- C8 (witness): a two-item work list, one formula and one raw id, both
already checkpointed. -/
theorem get_all_IR_all_done_witness :
    get_all_IR ⟨fun _ => false, fun _ => Except.ok "", fun _ => []⟩
      ["H2O"] ["H2O", "CH4"] ["123"] ["123"] = (St.init, none)
    ∧ (∀ ps, Ev.net ps ∉
        (get_all_IR ⟨fun _ => false, fun _ => Except.ok "", fun _ => []⟩
          ["H2O"] ["H2O", "CH4"] ["123"] ["123"]).1.events)
    ∧ (get_all_IR ⟨fun _ => false, fun _ => Except.ok "", fun _ => []⟩
        ["H2O"] ["H2O", "CH4"] ["123"] ["123"]).1.written = [] :=
  get_all_IR_all_done _ ["H2O"] ["H2O", "CH4"] ["123"] ["123"]
    (by decide) (by decide)

/-- Helper: one unfolding of the restart loop. -/
theorem mainLoop_succ (env : SupEnv) (fuel n : Nat) (stamps : List Rat)
    (log : String) :
    mainLoop env (fuel + 1) n stamps log =
      (if (run_scraper log (env.outcome n)).1 = true then ⟨0, n + 1, false⟩
      else if check_failure_threshold FAILURE_THRESHOLD
          (dequeAppend 1000 stamps (env.failTime n)) (env.checkTime n) = true then
        ⟨1, n + 1, true⟩
      else
        mainLoop env fuel (n + 1) (dequeAppend 1000 stamps (env.failTime n))
          (run_scraper log (env.outcome n)).2) := by
  rcases hrs : run_scraper log (env.outcome n) with ⟨b, log2⟩
  cases b
  · simp only [mainLoop, hrs]
    simp
  · simp only [mainLoop, hrs]
    simp

/-- Helper: full characterisation of the restart loop relative to the
derived per-attempt classification sequence `attemptOk`. -/
theorem mainLoop_spec (env : SupEnv) (log0 : String) :
    ∀ fuel n stamps,
      ((mainLoop env fuel n stamps (logAt env log0 n)).exitCode = 0
        ∨ (mainLoop env fuel n stamps (logAt env log0 n)).exitCode = 1)
      ∧ ((mainLoop env fuel n stamps (logAt env log0 n)).exitCode = 0 ↔
          ∃ i, n ≤ i ∧ i < (mainLoop env fuel n stamps (logAt env log0 n)).attempts
            ∧ attemptOk env log0 i = true)
      ∧ ((mainLoop env fuel n stamps (logAt env log0 n)).exitCode = 1 →
          ((mainLoop env fuel n stamps (logAt env log0 n)).tripped = true
            ∨ (mainLoop env fuel n stamps (logAt env log0 n)).attempts = n + fuel)
          ∧ ∀ i, n ≤ i →
              i < (mainLoop env fuel n stamps (logAt env log0 n)).attempts →
              attemptOk env log0 i = false)
      ∧ n ≤ (mainLoop env fuel n stamps (logAt env log0 n)).attempts
      ∧ (mainLoop env fuel n stamps (logAt env log0 n)).attempts ≤ n + fuel := by
  intro fuel
  induction fuel with
  | zero =>
      intro n stamps
      simp only [mainLoop]
      refine ⟨Or.inr (by simp), ?_, ?_, by simp, by simp⟩
      · constructor
        · intro h; simp at h
        · rintro ⟨i, h1, h2, _⟩
          omega
      · intro _
        refine ⟨Or.inr (by simp), ?_⟩
        intro i h1 h2
        omega
  | succ fuel ih =>
      intro n stamps
      rw [mainLoop_succ]
      by_cases hok : (run_scraper (logAt env log0 n) (env.outcome n)).1 = true
      · rw [if_pos hok]
        have hatt : attemptOk env log0 n = true := hok
        refine ⟨Or.inl rfl, ?_, ?_, Nat.le_succ n, ?_⟩
        · constructor
          · intro _
            exact ⟨n, Nat.le_refl n, Nat.lt_succ_self n, hatt⟩
          · intro _; rfl
        · intro h; simp at h
        · show n + 1 ≤ n + (fuel + 1)
          omega
      · rw [if_neg hok]
        have hatt : attemptOk env log0 n = false := by
          unfold attemptOk
          rw [Bool.not_eq_true] at hok
          exact hok
        by_cases htrip : check_failure_threshold FAILURE_THRESHOLD
            (dequeAppend 1000 stamps (env.failTime n)) (env.checkTime n) = true
        · rw [if_pos htrip]
          refine ⟨Or.inr rfl, ?_, ?_, Nat.le_succ n, ?_⟩
          · constructor
            · intro h; simp at h
            · rintro ⟨i, h1, h2, h3⟩
              have hin : i = n := by
                have h2b : i < n + 1 := h2
                omega
              subst hin
              rw [hatt] at h3
              simp at h3
          · intro _
            refine ⟨Or.inl rfl, ?_⟩
            intro i h1 h2
            have hin : i = n := by
              have h2b : i < n + 1 := h2
              omega
            subst hin
            exact hatt
          · show n + 1 ≤ n + (fuel + 1)
            omega
        · rw [if_neg htrip]
          have hlog : (run_scraper (logAt env log0 n) (env.outcome n)).2 =
              logAt env log0 (n + 1) := rfl
          rw [hlog]
          obtain ⟨ha, hb, hc, hd1, hd2⟩ :=
            ih (n + 1) (dequeAppend 1000 stamps (env.failTime n))
          refine ⟨ha, ?_, ?_, by omega, by omega⟩
          · constructor
            · intro h
              obtain ⟨i, h1, h2, h3⟩ := hb.mp h
              exact ⟨i, by omega, h2, h3⟩
            · rintro ⟨i, h1, h2, h3⟩
              apply hb.mpr
              refine ⟨i, ?_, h2, h3⟩
              rcases Nat.lt_or_ge i (n + 1) with hlt | hge
              · have hin : i = n := by omega
                subst hin
                rw [hatt] at h3
                simp at h3
              · exact hge
          · intro h
            obtain ⟨he, hf⟩ := hc h
            refine ⟨?_, ?_⟩
            · rcases he with he1 | he2
              · exact Or.inl he1
              · exact Or.inr (by omega)
            · intro i h1 h2
              rcases Nat.lt_or_ge i (n + 1) with hlt | hge
              · have hin : i = n := by omega
                subst hin
                exact hatt
              · exact hf i hge h2

/-- C9: the supervised main loop always finishes with exit code 0 or 1;
it exits 0 exactly when some executed run attempt was classified
successful; and when it exits 1, either the circuit breaker tripped or the
restart counter reached `MAX_RESTARTS`, and in both cases no executed
attempt was classified successful — the budget path never yields exit
code 0. -/
theorem main_exit_characterization (env : SupEnv) :
    ((main env).exitCode = 0 ∨ (main env).exitCode = 1)
    ∧ ((main env).exitCode = 0 ↔
        ∃ i, i < (main env).attempts ∧ attemptOk env "" i = true)
    ∧ ((main env).exitCode = 1 →
        ((main env).tripped = true ∨ (main env).attempts = MAX_RESTARTS)
        ∧ ∀ i, i < (main env).attempts → attemptOk env "" i = false)
    ∧ (main env).attempts ≤ MAX_RESTARTS := by
  have hbase : logAt env "" 0 = "" := rfl
  obtain ⟨ha, hb, hc, _, hd⟩ := mainLoop_spec env "" MAX_RESTARTS 0 []
  rw [hbase] at ha hb hc hd
  refine ⟨ha, ?_, ?_, hd⟩
  · constructor
    · intro h
      obtain ⟨i, _, h2, h3⟩ := hb.mp h
      exact ⟨i, h2, h3⟩
    · rintro ⟨i, h2, h3⟩
      exact hb.mpr ⟨i, Nat.zero_le i, h2, h3⟩
  · intro h
    obtain ⟨he, hf⟩ := hc h
    exact ⟨he, fun i h2 => hf i (Nat.zero_le i) h2⟩

/-- C10: an exception while spawning or streaming the child (observed as
`ChildRun.err`) is classified exactly like a failed run rather than
crashing the supervisor: `run_scraper` returns false, and the loop then
records the failure timestamp, consults the circuit breaker, and either
aborts with exit code 1 or backs off and restarts; the whole loop still
ends with exit code 0 or 1. -/
theorem run_scraper_exception_policy (env : SupEnv) (fuel n : Nat)
    (stamps : List Rat) (log msg : String)
    (h : env.outcome n = ChildRun.err msg) :
    (run_scraper log (ChildRun.err msg)).1 = false
    ∧ mainLoop env (fuel + 1) n stamps log =
        (if check_failure_threshold FAILURE_THRESHOLD
            (dequeAppend 1000 stamps (env.failTime n)) (env.checkTime n) = true then
          ⟨1, n + 1, true⟩
        else
          mainLoop env fuel (n + 1) (dequeAppend 1000 stamps (env.failTime n))
            (log ++ msg))
    ∧ ((main env).exitCode = 0 ∨ (main env).exitCode = 1) := by
  refine ⟨rfl, ?_, ?_⟩
  · rw [mainLoop_succ]
    rw [h]
    simp [run_scraper]
  · have hbase : logAt env "" 0 = "" := rfl
    obtain ⟨ha, _, _, _, _⟩ := mainLoop_spec env "" MAX_RESTARTS 0 []
    rw [hbase] at ha
    exact ha

/-- C10 (witness): a concrete supervisor environment whose every attempt
raises, at attempt 0. -/
theorem run_scraper_exception_policy_witness :
    (run_scraper "" (ChildRun.err "boom")).1 = false
    ∧ mainLoop ⟨fun _ => ChildRun.err "boom", fun _ => 0, fun _ => 0⟩ (3 + 1) 0 [] "" =
        (if check_failure_threshold FAILURE_THRESHOLD
            (dequeAppend 1000 []
              ((⟨fun _ => ChildRun.err "boom", fun _ => 0, fun _ => 0⟩ : SupEnv).failTime 0))
            ((⟨fun _ => ChildRun.err "boom", fun _ => 0, fun _ => 0⟩ : SupEnv).checkTime 0) = true then
          ⟨1, 0 + 1, true⟩
        else
          mainLoop ⟨fun _ => ChildRun.err "boom", fun _ => 0, fun _ => 0⟩ 3 (0 + 1)
            (dequeAppend 1000 []
              ((⟨fun _ => ChildRun.err "boom", fun _ => 0, fun _ => 0⟩ : SupEnv).failTime 0))
            ("" ++ "boom"))
    ∧ ((main ⟨fun _ => ChildRun.err "boom", fun _ => 0, fun _ => 0⟩).exitCode = 0
        ∨ (main ⟨fun _ => ChildRun.err "boom", fun _ => 0, fun _ => 0⟩).exitCode = 1) :=
  run_scraper_exception_policy ⟨fun _ => ChildRun.err "boom", fun _ => 0, fun _ => 0⟩
    3 0 [] "" "boom" rfl

/-- Helper: the appended timestamp is always in the deque. -/
theorem dequeAppend_mem (q : List Rat) (r : Rat) : r ∈ dequeAppend 5 q r := by
  unfold dequeAppend
  split <;> simp

/-- Helper: the deque never exceeds its maxlen. -/
theorem dequeAppend_length (q : List Rat) (r : Rat) (h : q.length ≤ 5) :
    (dequeAppend 5 q r).length ≤ 5 := by
  unfold dequeAppend
  split
  · next hfull =>
      simp only [List.length_append, List.length_tail, List.length_singleton]
      omega
  · next hne =>
      simp only [List.length_append, List.length_singleton]
      omega

/-- Helper: appending a timestamp at least every element keeps the deque
sorted. -/
theorem dequeAppend_pairwise (q : List Rat) (r : Rat)
    (hq : q.Pairwise (· ≤ ·)) (hr : ∀ x ∈ q, x ≤ r) :
    (dequeAppend 5 q r).Pairwise (· ≤ ·) := by
  unfold dequeAppend
  split
  · refine List.pairwise_append.mpr
      ⟨List.Pairwise.sublist (List.tail_sublist q) hq, List.pairwise_singleton _ _, ?_⟩
    intro a ha b hb
    rw [List.mem_singleton] at hb
    subst hb
    exact hr a (List.mem_of_mem_tail ha)
  · refine List.pairwise_append.mpr ⟨hq, List.pairwise_singleton _ _, ?_⟩
    intro a ha b hb
    rw [List.mem_singleton] at hb
    subst hb
    exact hr a ha

/-- Helper: the issue instant is at least every recorded timestamp, given
the caller's clock is past all of them. -/
theorem grantTime_ge (q : List Rat) (t : Rat) (hall : ∀ x ∈ q, x ≤ t) :
    ∀ x ∈ q, x ≤ grantTime q t := by
  intro x hx
  cases q with
  | nil => simp at hx
  | cons oldest rest =>
      unfold grantTime
      by_cases hfull : (oldest :: rest : List Rat).length = 5
      · rw [if_pos hfull]
        show x ≤ if t - oldest < 30 then oldest + 30 else t
        by_cases hlt : t - oldest < 30
        · rw [if_pos hlt]
          have hxa := hall x hx
          linarith
        · rw [if_neg hlt]
          exact hall x hx
      · rw [if_neg hfull]
        exact hall x hx

/-- Helper: with a full deque, the issue instant is at least 30 seconds
after the oldest recorded timestamp. -/
theorem grantTime_spacing (oldest : Rat) (rest : List Rat) (t : Rat)
    (hfull : (oldest :: rest : List Rat).length = 5) :
    oldest + 30 ≤ grantTime (oldest :: rest) t := by
  unfold grantTime
  rw [if_pos hfull]
  show oldest + 30 ≤ if t - oldest < 30 then oldest + 30 else t
  by_cases hlt : t - oldest < 30
  · rw [if_pos hlt]
  · rw [if_neg hlt]
    have hge : 30 ≤ t - oldest := not_lt.mp hlt
    linarith

/-- Helper: the main invariant of the rate limiter run. For a sorted deque
of at most five recorded timestamps and a well-formed call sequence:
the issue instants are monotone; every issue instant dominates the starting
deque; every recorded timestamp is at least its issue instant; and the
issue instant of a call is at least 30 seconds after the timestamp five
positions earlier in the combined timeline (starting deque, then recorded
timestamps). -/
theorem rlRun_invariant (cs : List RLCall) :
    ∀ q : List Rat, q.Pairwise (· ≤ ·) → q.length ≤ 5 → rlWF q cs = true →
      ((rlRun q cs).map Prod.fst).Pairwise (· ≤ ·)
      ∧ (∀ p ∈ rlRun q cs, ∀ x ∈ q, x ≤ p.1)
      ∧ (∀ p ∈ rlRun q cs, p.1 ≤ p.2)
      ∧ ∀ i j, i + 5 = q.length + j → j < (rlRun q cs).length →
          (q ++ (rlRun q cs).map Prod.snd).getD i 0 + 30
            ≤ ((rlRun q cs).getD j (0, 0)).1 := by
  induction cs with
  | nil =>
      intro q hq hlen hwf
      refine ⟨by simp [rlRun], by simp [rlRun], by simp [rlRun], ?_⟩
      intro i j _ hj
      simp [rlRun] at hj
  | cons c cs ih =>
      intro q hq hlen hwf
      simp only [rlWF, Bool.and_eq_true, decide_eq_true_eq, List.all_eq_true] at hwf
      obtain ⟨⟨hdur, hall⟩, hwf2⟩ := hwf
      have hga : ∀ x ∈ q, x ≤ grantTime q c.arrival := grantTime_ge q c.arrival hall
      have hgr : grantTime q c.arrival ≤ grantTime q c.arrival + c.duration := by
        linarith
      have hrall : ∀ x ∈ q, x ≤ grantTime q c.arrival + c.duration :=
        fun x hx => le_trans (hga x hx) hgr
      have hq2 := dequeAppend_pairwise q (grantTime q c.arrival + c.duration) hq hrall
      have hlen2 := dequeAppend_length q (grantTime q c.arrival + c.duration) hlen
      obtain ⟨ihA, ihB, ihC, ihD⟩ :=
        ih (dequeAppend 5 q (grantTime q c.arrival + c.duration)) hq2 hlen2 hwf2
      have hmemr := dequeAppend_mem q (grantTime q c.arrival + c.duration)
      refine ⟨?_, ?_, ?_, ?_⟩
      · simp only [rlRun, List.map_cons]
        refine List.pairwise_cons.mpr ⟨?_, ihA⟩
        intro y hy
        obtain ⟨p, hp, rfl⟩ := List.mem_map.mp hy
        exact le_trans hgr (ihB p hp _ hmemr)
      · simp only [rlRun]
        intro p hp x hx
        rcases List.mem_cons.mp hp with rfl | hp2
        · exact hga x hx
        · exact le_trans (hrall x hx) (ihB p hp2 _ hmemr)
      · simp only [rlRun]
        intro p hp
        rcases List.mem_cons.mp hp with rfl | hp2
        · exact hgr
        · exact ihC p hp2
      · simp only [rlRun, List.map_cons, List.length_cons]
        intro i j hij hj
        cases j with
        | zero =>
            have hfull : q.length = 5 := by omega
            have hi0 : i = 0 := by omega
            subst hi0
            cases q with
            | nil => simp at hfull
            | cons oldest rest =>
                simp only [List.cons_append, List.getD_cons_zero]
                exact grantTime_spacing oldest rest c.arrival hfull
        | succ j2 =>
            have hj2 : j2 < (rlRun (dequeAppend 5 q
                (grantTime q c.arrival + c.duration)) cs).length := by omega
            rw [List.getD_cons_succ]
            by_cases hfull : q.length = 5
            · cases q with
              | nil => simp at hfull
              | cons oldest rest =>
                  have e1 : dequeAppend 5 (oldest :: rest)
                      (grantTime (oldest :: rest) c.arrival + c.duration) =
                      rest ++ [grantTime (oldest :: rest) c.arrival + c.duration] := by
                    unfold dequeAppend
                    rw [if_pos hfull]
                    rfl
                  have hlen5 : (dequeAppend 5 (oldest :: rest)
                      (grantTime (oldest :: rest) c.arrival + c.duration)).length = 5 := by
                    rw [e1]
                    simp only [List.length_append, List.length_singleton]
                    simp only [List.length_cons] at hfull
                    omega
                  have hi2 : i = j2 + 1 := by
                    rw [hfull] at hij
                    omega
                  subst hi2
                  have hD2 := ihD j2 j2 (by omega) hj2
                  rw [e1] at hD2
                  have e2 : (rest ++ [grantTime (oldest :: rest) c.arrival + c.duration])
                      ++ (rlRun (rest ++
                        [grantTime (oldest :: rest) c.arrival + c.duration]) cs).map
                          Prod.snd
                      = rest ++ ((grantTime (oldest :: rest) c.arrival + c.duration)
                        :: (rlRun (rest ++
                          [grantTime (oldest :: rest) c.arrival + c.duration]) cs).map
                            Prod.snd) := by
                    rw [List.append_assoc]
                    rfl
                  rw [e2] at hD2
                  simp only [List.cons_append, List.getD_cons_succ]
                  rw [e1]
                  exact hD2
            · have e1 : dequeAppend 5 q (grantTime q c.arrival + c.duration) =
                  q ++ [grantTime q c.arrival + c.duration] := by
                unfold dequeAppend
                rw [if_neg hfull]
              have hD2 := ihD i j2 (by rw [e1]; simp only [List.length_append,
                List.length_singleton]; omega) hj2
              rw [e1] at hD2
              have e2 : (q ++ [grantTime q c.arrival + c.duration])
                  ++ (rlRun (q ++ [grantTime q c.arrival + c.duration]) cs).map Prod.snd
                  = q ++ ((grantTime q c.arrival + c.duration)
                    :: (rlRun (q ++ [grantTime q c.arrival + c.duration]) cs).map
                      Prod.snd) := by
                rw [List.append_assoc]
                rfl
              rw [e2] at hD2
              rw [e1]
              exact hD2

/-- Helper: in a sorted list, `getD` is monotone in the index. -/
theorem getD_mono_of_pairwise (l : List Rat) (hs : l.Pairwise (· ≤ ·)) :
    ∀ i j, i ≤ j → j < l.length → l.getD i 0 ≤ l.getD j 0 := by
  intro i j hij hj
  rcases Nat.eq_or_lt_of_le hij with rfl | hlt
  · exact le_refl _
  · have hi : i < l.length := lt_trans hlt hj
    rw [List.getD_eq_getElem l 0 hi, List.getD_eq_getElem l 0 hj]
    exact List.pairwise_iff_getElem.mp hs i j hi hj hlt

/-- Helper: a sorted list in which entries five positions apart differ by
at least 30 has at most five entries in any half-open window of width
30. -/
theorem window_count_of_spaced (l : List Rat) :
    l.Pairwise (· ≤ ·) →
    (∀ i j, i + 5 = j → j < l.length → l.getD i 0 + 30 ≤ l.getD j 0) →
    ∀ t : Rat, (l.filter (fun x => decide (t < x ∧ x ≤ t + 30))).length ≤ 5 := by
  induction l with
  | nil => intro _ _ t; simp
  | cons a rest ih =>
      intro hs hsp t
      have hsrest := (List.pairwise_cons.mp hs).2
      have hsprest : ∀ i j, i + 5 = j → j < rest.length →
          rest.getD i 0 + 30 ≤ rest.getD j 0 := by
        intro i j hij hj
        have h2 := hsp (i + 1) (j + 1) (by omega)
          (by simp only [List.length_cons]; omega)
        simpa only [List.getD_cons_succ] using h2
      by_cases hpa : t < a ∧ a ≤ t + 30
      · rw [List.filter_cons_of_pos (by simpa using hpa)]
        simp only [List.length_cons]
        have hsplit := (List.take_append_drop 4 rest).symm
        have hdropnil :
            (rest.drop 4).filter (fun x => decide (t < x ∧ x ≤ t + 30)) = [] := by
          apply List.filter_eq_nil_iff.mpr
          intro x hx
          obtain ⟨m, hm, hxe⟩ := List.mem_iff_getElem.mp hx
          have hm4 : 4 + m < rest.length := by
            simp only [List.length_drop] at hm
            omega
          have hx2 : x = rest.getD (4 + m) 0 := by
            rw [List.getD_eq_getElem rest 0 hm4]
            rw [← hxe]
            simp [List.getElem_drop]
          have hsp2 := hsp m (m + 5) rfl
            (by simp only [List.length_cons]; omega)
          have hix : (a :: rest).getD (m + 5) 0 = rest.getD (4 + m) 0 := by
            rw [show m + 5 = (4 + m) + 1 from by omega]
            exact List.getD_cons_succ
          have hmono := getD_mono_of_pairwise (a :: rest) hs 0 m (Nat.zero_le m)
            (by simp only [List.length_cons]; omega)
          rw [List.getD_cons_zero] at hmono
          rw [hix] at hsp2
          rw [hx2]
          simp only [decide_eq_true_eq, not_and, not_le]
          intro _
          have hta : t < a := hpa.1
          linarith
        have hrest : (rest.filter (fun x => decide (t < x ∧ x ≤ t + 30))).length ≤ 4 := by
          conv_lhs => rw [hsplit]
          rw [List.filter_append, List.length_append, hdropnil]
          simp only [List.length_nil, Nat.add_zero]
          refine le_trans (List.length_filter_le _ _) ?_
          rw [List.length_take]
          exact Nat.min_le_left _ _
        omega
      · rw [List.filter_cons_of_neg (by simpa using hpa)]
        exact ih hsrest hsprest t

/-- C1: over any well-formed sequence of `rate_limited_request` calls
starting from the empty timestamp deque, every half-open window `(t, t+30]`
contains at most five issue instants; and whenever five timestamps are
recorded and the oldest is less than 30 seconds old at entry, the call is
suspended so that the request is issued exactly at `oldest + 30` (its own
timestamp being recorded after the request returns). -/
theorem rate_limiter_window (calls : List RLCall)
    (hwf : rlWF [] calls = true) :
    (∀ t : Rat, ((rlGrants [] calls).filter
        (fun g => decide (t < g ∧ g ≤ t + 30))).length ≤ 5)
    ∧ (∀ oldest t, ∀ rest : List Rat, (oldest :: rest).length = 5 →
        t - oldest < 30 → grantTime (oldest :: rest) t = oldest + 30) := by
  constructor
  · obtain ⟨hA, hB, hC, hD⟩ :=
      rlRun_invariant calls [] List.Pairwise.nil (by simp) hwf
    intro t
    apply window_count_of_spaced (rlGrants [] calls) hA
    · intro i j hij hj
      have hjr : j < (rlRun [] calls).length := by
        simpa only [rlGrants, List.length_map] using hj
      have hir : i < (rlRun [] calls).length := by omega
      have hD2 := hD i j (by simpa using hij) hjr
      have hrec : (([] : List Rat) ++ (rlRun [] calls).map Prod.snd).getD i 0 =
          ((rlRun [] calls).getD i (0, 0)).2 := by
        rw [List.nil_append]
        rw [List.getD_eq_getElem _ 0 (by simpa only [List.length_map] using hir)]
        rw [List.getD_eq_getElem _ (0, 0) hir]
        simp [List.getElem_map]
      have hgj : (rlGrants [] calls).getD j 0 = ((rlRun [] calls).getD j (0, 0)).1 := by
        rw [rlGrants]
        rw [List.getD_eq_getElem _ 0 (by simpa only [List.length_map] using hjr)]
        rw [List.getD_eq_getElem _ (0, 0) hjr]
        simp [List.getElem_map]
      have hgi : (rlGrants [] calls).getD i 0 = ((rlRun [] calls).getD i (0, 0)).1 := by
        rw [rlGrants]
        rw [List.getD_eq_getElem _ 0 (by simpa only [List.length_map] using hir)]
        rw [List.getD_eq_getElem _ (0, 0) hir]
        simp [List.getElem_map]
      have hfs : ((rlRun [] calls).getD i (0, 0)).1 ≤
          ((rlRun [] calls).getD i (0, 0)).2 := by
        rw [List.getD_eq_getElem _ (0, 0) hir]
        exact hC _ (List.getElem_mem hir)
      rw [hrec] at hD2
      rw [hgj, hgi]
      linarith
  · intro oldest t rest hfull hlt
    unfold grantTime
    rw [if_pos hfull]
    show (if t - oldest < 30 then oldest + 30 else t) = oldest + 30
    rw [if_pos hlt]

/-- C1 (witness): the concrete two-call sequence arriving at times 0 and 1
with instantaneous requests is well-formed, and the window bound and exact
suspension rule hold for it. -/
theorem rate_limiter_window_witness :
    (∀ t : Rat, ((rlGrants [] [⟨0, 0⟩, ⟨1, 0⟩]).filter
        (fun g => decide (t < g ∧ g ≤ t + 30))).length ≤ 5)
    ∧ (∀ oldest t, ∀ rest : List Rat, (oldest :: rest).length = 5 →
        t - oldest < 30 → grantTime (oldest :: rest) t = oldest + 30) :=
  rate_limiter_window [⟨0, 0⟩, ⟨1, 0⟩] (by norm_num [rlWF, dequeAppend, grantTime])

/-- C5 (witness): the amended statement at the concrete key `"H2O"` on the
empty store. -/
theorem markDone_reload_isDone_witness :
    isDone (reload (markDone emptyStore "H2O")) "H2O" = true
    ∧ (∀ j, isDone (reload (markDone (markDone emptyStore "H2O") "H2O")) j =
        isDone (reload (markDone emptyStore "H2O")) j)
    ∧ (∀ j, isDone (markDone emptyStore "H2O") j = isDone emptyStore j) :=
  markDone_reload_isDone emptyStore "H2O" (by decide)
